import Mathlib

/-!
Verification of the Project Lifecycle & Log Streaming subsystem of the
`cloudflarechat` repository (`src/build-server/project-manager.ts` and
`src/src/hooks/useProjectManager.ts`), shallowly embedded in Lean 4.

Each definition mirrors one function or state component of the TypeScript
source; theorems settle the specification claims about them.
-/

namespace CFChat

/-! ## Port allocator (`project-manager.ts` lines 8-10, 149-161)

`allocatePort` scans the configured inclusive range in ascending order and
returns the first port not in `usedPorts`, adding it to the set; when the
loop falls through it throws `No available ports in range` (modelled as
`none`).  `releasePort` deletes the port from the set. -/

def PORT_RANGE_START : Nat := 3002

def PORT_RANGE_END : Nat := 3100

/-- The ascending list of ports scanned by the `for` loop in `allocatePort`. -/
def portRangeList : List Nat := List.range' PORT_RANGE_START (PORT_RANGE_END + 1 - PORT_RANGE_START)

/-- `ProjectManager.allocatePort`: first free port of the range (marking it
used), or `none` for the thrown `No available ports in range` error. -/
def allocatePort (usedPorts : Finset Nat) : Option (Nat × Finset Nat) :=
  match portRangeList.find? (fun port => decide (port ∉ usedPorts)) with
  | some port => some (port, insert port usedPorts)
  | none => none

/-- `ProjectManager.releasePort`: `usedPorts.delete(port)`. -/
def releasePort (usedPorts : Finset Nat) (port : Nat) : Finset Nat :=
  usedPorts.erase port

/-! ### Generic facts about `List.find?` over an ascending range -/

theorem find?_range'_forward {f : Nat → Bool} :
    ∀ (n s p : Nat), (List.range' s n).find? f = some p →
      f p = true ∧ s ≤ p ∧ p < s + n ∧ ∀ q, s ≤ q → q < p → f q = false := by
  intro n
  induction n with
  | zero => intro s p h; simp [List.range'] at h
  | succ n ih =>
    intro s p h
    rw [List.range'_succ] at h
    by_cases hs : f s
    · rw [List.find?_cons_of_pos _ hs] at h
      obtain rfl : p = s := by injection h with h; exact h.symm
      exact ⟨hs, le_rfl, by omega, fun q hq1 hq2 => absurd hq1 (by omega)⟩
    · rw [List.find?_cons_of_neg _ (by simpa using hs)] at h
      obtain ⟨h1, h2, h3, h4⟩ := ih (s + 1) p h
      refine ⟨h1, by omega, by omega, fun q hq1 hq2 => ?_⟩
      rcases Nat.eq_or_lt_of_le hq1 with rfl | hlt
      · simpa using hs
      · exact h4 q hlt hq2

theorem find?_range'_backward {f : Nat → Bool} :
    ∀ (n s p : Nat), s ≤ p → p < s + n → f p = true →
      (∀ q, s ≤ q → q < p → f q = false) →
      (List.range' s n).find? f = some p := by
  intro n
  induction n with
  | zero => intro s p h1 h2; omega
  | succ n ih =>
    intro s p h1 h2 h3 h4
    rw [List.range'_succ]
    rcases Nat.eq_or_lt_of_le h1 with rfl | hlt
    · exact List.find?_cons_of_pos _ h3
    · rw [List.find?_cons_of_neg _ (by simp [h4 s le_rfl hlt])]
      exact ih (s + 1) p hlt (by omega) h3 (fun q hq1 hq2 => h4 q (by omega) hq2)

theorem mem_portRangeList {p : Nat} :
    p ∈ portRangeList ↔ PORT_RANGE_START ≤ p ∧ p ≤ PORT_RANGE_END := by
  simp only [portRangeList, List.mem_range'_1, PORT_RANGE_START, PORT_RANGE_END]
  omega

/-! ### Characterisation of `allocatePort` -/

theorem allocatePort_some {usedPorts : Finset Nat} {p : Nat} {u2 : Finset Nat}
    (h : allocatePort usedPorts = some (p, u2)) :
    PORT_RANGE_START ≤ p ∧ p ≤ PORT_RANGE_END ∧ p ∉ usedPorts ∧
      u2 = insert p usedPorts ∧
      ∀ q, PORT_RANGE_START ≤ q → q < p → q ∈ usedPorts := by
  unfold allocatePort at h
  rcases hf : portRangeList.find? (fun port => decide (port ∉ usedPorts)) with _ | q
  · rw [hf] at h; exact absurd h (by simp)
  · rw [hf] at h
    obtain ⟨hq, hl, hu, hmin⟩ := find?_range'_forward _ _ _ hf
    simp only [Option.some.injEq, Prod.mk.injEq] at h
    obtain ⟨rfl, rfl⟩ := h
    refine ⟨hl, by simp only [PORT_RANGE_START, PORT_RANGE_END] at hu ⊢; omega,
      by simpa using hq, rfl, ?_⟩
    intro r hr1 hr2
    have hqf := hmin r hr1 hr2
    simp only [decide_eq_false_iff_not, not_not] at hqf
    exact hqf

theorem allocatePort_exhausted {usedPorts : Finset Nat}
    (h : ∀ q, PORT_RANGE_START ≤ q → q ≤ PORT_RANGE_END → q ∈ usedPorts) :
    allocatePort usedPorts = none := by
  unfold allocatePort
  have : portRangeList.find? (fun port => decide (port ∉ usedPorts)) = none := by
    rw [List.find?_eq_none]
    intro x hx
    obtain ⟨h1, h2⟩ := mem_portRangeList.mp hx
    simp [h x h1 h2]
  rw [this]

theorem allocatePort_lowest {usedPorts : Finset Nat} {p : Nat}
    (h1 : PORT_RANGE_START ≤ p) (h2 : p ≤ PORT_RANGE_END)
    (h3 : p ∉ usedPorts) (h4 : ∀ q, PORT_RANGE_START ≤ q → q < p → q ∈ usedPorts) :
    allocatePort usedPorts = some (p, insert p usedPorts) := by
  unfold allocatePort
  have : portRangeList.find? (fun port => decide (port ∉ usedPorts)) = some p := by
    apply find?_range'_backward
    · exact h1
    · simp only [PORT_RANGE_START, PORT_RANGE_END] at h2 ⊢; omega
    · simpa using h3
    · intro q hq1 hq2; simp [h4 q hq1 hq2]
  rw [this]

/-- C5: `allocatePort` returns the lowest free port of the configured
inclusive range [3002, 3100], marking it used; when every port of the range
is already allocated it fails with `PortExhausted` (the thrown
`No available ports in range`, modelled as `none`); and after releasing a
port of a fully-allocated set, a subsequent `allocatePort` returns exactly
that previously-released port. -/
theorem C5_allocatePort_lowest_exhausted_reuse :
    (∀ (used : Finset Nat) (p : Nat) (u2 : Finset Nat),
        allocatePort used = some (p, u2) →
          PORT_RANGE_START ≤ p ∧ p ≤ PORT_RANGE_END ∧ p ∉ used ∧
          u2 = insert p used ∧ ∀ q, PORT_RANGE_START ≤ q → q < p → q ∈ used) ∧
    (∀ used : Finset Nat,
        (∀ q, PORT_RANGE_START ≤ q → q ≤ PORT_RANGE_END → q ∈ used) →
        allocatePort used = none) ∧
    (∀ (used : Finset Nat) (p : Nat),
        PORT_RANGE_START ≤ p → p ≤ PORT_RANGE_END →
        (∀ q, PORT_RANGE_START ≤ q → q ≤ PORT_RANGE_END → q ∈ used) →
        allocatePort (releasePort used p) =
          some (p, insert p (releasePort used p))) := by
  refine ⟨fun used p u2 h => allocatePort_some h,
    fun used h => allocatePort_exhausted h,
    fun used p h1 h2 hfull => ?_⟩
  apply allocatePort_lowest h1 h2
  · simp [releasePort]
  · intro q hq1 hq2
    simp only [releasePort, Finset.mem_erase]
    exact ⟨by omega, hfull q hq1 (by omega)⟩

/-- A fully-allocated used-port set, for the witness below. -/
def portFull : Finset Nat := portRangeList.toFinset

theorem C5_witness :
    (PORT_RANGE_START ≤ 3002 ∧ 3002 ≤ PORT_RANGE_END ∧
      3002 ∉ (∅ : Finset Nat) ∧
      insert 3002 (∅ : Finset Nat) = insert 3002 (∅ : Finset Nat) ∧
      ∀ q, PORT_RANGE_START ≤ q → q < 3002 → q ∈ (∅ : Finset Nat)) ∧
    allocatePort portFull = none ∧
    allocatePort (releasePort portFull 3002) =
      some (3002, insert 3002 (releasePort portFull 3002)) :=
  have hfull : ∀ q, PORT_RANGE_START ≤ q → q ≤ PORT_RANGE_END → q ∈ portFull :=
    fun q h1 h2 => List.mem_toFinset.mpr (mem_portRangeList.mpr ⟨h1, h2⟩)
  ⟨C5_allocatePort_lowest_exhausted_reuse.1 ∅ 3002 (insert 3002 ∅) rfl,
   C5_allocatePort_lowest_exhausted_reuse.2.1 portFull hfull,
   C5_allocatePort_lowest_exhausted_reuse.2.2 portFull 3002 (by decide) (by decide) hfull⟩

/-! ## Dev-server lifecycle state (`project-manager.ts` lines 44-49, 370-445, 529-576)

The mutable fields of `ProjectManager` relevant to the port invariant:
`processes : Map<string, ChildProcess>` (modelled by its key set — the set of
active ProcessHandles), `ports : Map<string, number>` and
`usedPorts : Set<number>`.  JS `Map` operations are modelled on association
lists: `set` replaces any binding of the key, `delete` removes it, `get` is
`find?` on the key. -/

abbrev ProjectId := String

def eraseKey {β : Type} (l : List (ProjectId × β)) (k : ProjectId) : List (ProjectId × β) :=
  l.filter (fun e => e.1 != k)

def setKey {β : Type} (l : List (ProjectId × β)) (k : ProjectId) (v : β) : List (ProjectId × β) :=
  (k, v) :: eraseKey l k

def lookupKey {β : Type} (l : List (ProjectId × β)) (k : ProjectId) : Option β :=
  (l.find? (fun e => e.1 == k)).map (fun e => e.2)

structure PMState where
  usedPorts : Finset Nat
  ports : List (ProjectId × Nat)
  processes : Finset ProjectId

/-- The in-memory state of a freshly constructed `ProjectManager`. -/
def initPM : PMState := ⟨∅, [], ∅⟩

/-- `ProjectManager.startDevServer` (state effect): if a ProcessHandle already
exists the call returns the existing binding unchanged; otherwise it calls
`allocatePort` (whose failure throws before any mutation), records the port in
`ports` and the spawned child in `processes`. -/
def startDevServer (s : PMState) (pid : ProjectId) : PMState :=
  if pid ∈ s.processes then s
  else
    match allocatePort s.usedPorts with
    | none => s
    | some (port, used2) =>
        { usedPorts := used2, ports := setKey s.ports pid port,
          processes := insert pid s.processes }

/-- `ProjectManager.stopDevServer` as one uninterleaved call (lines 529-576):
it returns immediately when no ProcessHandle exists; otherwise it reads the
project's port (line 537, before its two awaits), attempts the
SIGTERM/SIGKILL signals and the `lsof`-based backup kill — whose errors are
swallowed by empty `catch` blocks, modelled by the ignored `killFailed`
flag — and then unconditionally releases the captured port, deletes the
`ports` binding and deletes the ProcessHandle.  When nothing interleaves the
call, the captured port is still the project's current binding when it is
released; `stopDevServerFinish` below models the post-await tail alone, for
traces where other handlers run during the awaits. -/
def stopDevServer (s : PMState) (pid : ProjectId) (_killFailed : Bool) : PMState :=
  if pid ∉ s.processes then s
  else
    match lookupKey s.ports pid with
    | some port =>
        { usedPorts := releasePort s.usedPorts port,
          ports := eraseKey s.ports pid,
          processes := s.processes.erase pid }
    | none => { s with processes := s.processes.erase pid }

/-- The `close` handler attached to the spawned dev-server child (lines
432-437): whenever the child exits it runs unconditionally — no liveness
check — deleting the ProcessHandle, releasing the port captured at spawn
time (the `port` variable of the enclosing `startDevServer` call) and
deleting the `ports` binding. -/
def closeHandler (s : PMState) (pid : ProjectId) (capturedPort : Nat) : PMState :=
  { usedPorts := releasePort s.usedPorts capturedPort,
    ports := eraseKey s.ports pid,
    processes := s.processes.erase pid }

/-- The tail of `ProjectManager.stopDevServer` after its two awaits (lines
557-574), for a truthy captured `port`: the `lsof` backup kill on that port,
then release of the captured port, deletion of the `ports` binding and
deletion of the ProcessHandle.  The port was read at line 537, before the
500 ms grace sleep and the `lsof` await, and is not re-read. -/
def stopDevServerFinish (s : PMState) (pid : ProjectId) (capturedPort : Nat) : PMState :=
  { usedPorts := releasePort s.usedPorts capturedPort,
    ports := eraseKey s.ports pid,
    processes := s.processes.erase pid }

/-! ### Association-list lemmas -/

theorem mem_eraseKey {β : Type} {l : List (ProjectId × β)} {k : ProjectId} {e : ProjectId × β} :
    e ∈ eraseKey l k ↔ e ∈ l ∧ e.1 ≠ k := by
  simp [eraseKey, List.mem_filter]

theorem eraseKey_of_not_mem {β : Type} {l : List (ProjectId × β)} {k : ProjectId}
    (h : ∀ v, (k, v) ∉ l) : eraseKey l k = l := by
  apply List.filter_eq_self.mpr
  intro e he
  obtain ⟨a, b⟩ := e
  simp only [bne_iff_ne, ne_eq, decide_eq_true_eq]
  rintro rfl
  exact h b he

theorem keys_nodup_unique {β : Type} {l : List (ProjectId × β)} (h : (l.map Prod.fst).Nodup)
    {k : ProjectId} {a b : β} (ha : (k, a) ∈ l) (hb : (k, b) ∈ l) : a = b := by
  induction l with
  | nil => cases ha
  | cons hd tl ih =>
    simp only [List.map_cons, List.nodup_cons] at h
    rcases List.mem_cons.mp ha with ha1 | ha'
    · rcases List.mem_cons.mp hb with hb1 | hb'
      · exact congrArg Prod.snd (ha1.trans hb1.symm)
      · apply absurd _ h.1
        rw [← ha1]
        simpa using List.mem_map_of_mem Prod.fst hb'
    · rcases List.mem_cons.mp hb with hb1 | hb'
      · apply absurd _ h.1
        rw [← hb1]
        simpa using List.mem_map_of_mem Prod.fst ha'
      · exact ih h.2 ha' hb'

theorem vals_nodup_unique {β : Type} [DecidableEq β] {l : List (ProjectId × β)} (h : (l.map Prod.snd).Nodup)
    {a b : ProjectId} {p : β} (ha : (a, p) ∈ l) (hb : (b, p) ∈ l) : a = b := by
  induction l with
  | nil => cases ha
  | cons hd tl ih =>
    simp only [List.map_cons, List.nodup_cons] at h
    rcases List.mem_cons.mp ha with ha1 | ha'
    · rcases List.mem_cons.mp hb with hb1 | hb'
      · exact congrArg Prod.fst (ha1.trans hb1.symm)
      · apply absurd _ h.1
        rw [← ha1]
        simpa using List.mem_map_of_mem Prod.snd hb'
    · rcases List.mem_cons.mp hb with hb1 | hb'
      · apply absurd _ h.1
        rw [← hb1]
        simpa using List.mem_map_of_mem Prod.snd ha'
      · exact ih h.2 ha' hb'

theorem lookupKey_eq_some {β : Type} {l : List (ProjectId × β)} (hn : (l.map Prod.fst).Nodup)
    {k : ProjectId} {v : β} : lookupKey l k = some v ↔ (k, v) ∈ l := by
  constructor
  · intro h
    unfold lookupKey at h
    rcases hf : l.find? (fun e => e.1 == k) with _ | e
    · rw [hf] at h; cases h
    · rw [hf] at h
      have he1 : e.1 = k := by simpa using List.find?_some hf
      have he2 : e ∈ l := List.mem_of_find?_eq_some hf
      obtain rfl : e.2 = v := by simpa using h
      rw [← he1]; exact he2
  · intro h
    have : ∃ e ∈ l, (fun e : ProjectId × β => e.1 == k) e := ⟨(k, v), h, by simp⟩
    obtain ⟨e, hfind⟩ := Option.isSome_iff_exists.mp (List.find?_isSome.mpr this)
    have he1 : e.1 = k := by simpa using List.find?_some hfind
    have he2 : e ∈ l := List.mem_of_find?_eq_some hfind
    have : e.2 = v := keys_nodup_unique hn (he1 ▸ (by simpa using he2)) h
    simp [lookupKey, hfind, this]

theorem lookupKey_eq_none {β : Type} {l : List (ProjectId × β)} {k : ProjectId} :
    lookupKey l k = none ↔ ∀ v, (k, v) ∉ l := by
  unfold lookupKey
  rw [Option.map_eq_none', List.find?_eq_none]
  constructor
  · intro h v hv
    exact absurd (by simp : ((k, v).1 == k) = true) (by simpa using h _ hv)
  · intro h e he
    obtain ⟨a, b⟩ := e
    simp only [beq_iff_eq]
    rintro rfl
    exact h b he

theorem lookupKey_eraseKey_self {β : Type} {l : List (ProjectId × β)} {k : ProjectId} :
    lookupKey (eraseKey l k) k = none := by
  rw [lookupKey_eq_none]
  intro v hv
  exact absurd (mem_eraseKey.mp hv).2 (by simp)

theorem keys_eraseKey_nodup {β : Type} {l : List (ProjectId × β)} {k : ProjectId}
    (h : (l.map Prod.fst).Nodup) : ((eraseKey l k).map Prod.fst).Nodup :=
  h.sublist (List.Sublist.map Prod.fst (List.filter_sublist l))

theorem vals_eraseKey_nodup {β : Type} {l : List (ProjectId × β)} {k : ProjectId}
    (h : (l.map Prod.snd).Nodup) : ((eraseKey l k).map Prod.snd).Nodup :=
  h.sublist (List.Sublist.map Prod.snd (List.filter_sublist l))

/-! ### The port/handle invariant -/

/-- The invariant the spec claims (data model §3): `ports` is a map with
pairwise-distinct ports, its key set is exactly the set of live
ProcessHandles, and the allocator's `usedPorts` is exactly its value set.
Uninterleaved `startDevServer`/`stopDevServer` calls preserve it
(`pmInv_start`, `pmInv_stop`); the interleaved trace below breaks it. -/
def PMInv (s : PMState) : Prop :=
  (s.ports.map Prod.fst).Nodup ∧
  (s.ports.map Prod.snd).Nodup ∧
  (∀ pid, pid ∈ s.processes ↔ ∃ p, (pid, p) ∈ s.ports) ∧
  (∀ p, p ∈ s.usedPorts ↔ ∃ pid, (pid, p) ∈ s.ports)

theorem pmInv_init : PMInv initPM := by
  refine ⟨by simp [initPM], by simp [initPM], ?_, ?_⟩ <;> intro x <;> simp [initPM]

theorem pmInv_start {s : PMState} (h : PMInv s) (pid : ProjectId) :
    PMInv (startDevServer s pid) := by
  obtain ⟨h1, h2, h3, h4⟩ := h
  unfold startDevServer
  by_cases hp : pid ∈ s.processes
  · simp only [hp, if_true]; exact ⟨h1, h2, h3, h4⟩
  · simp only [hp, if_false]
    rcases ha : allocatePort s.usedPorts with _ | pu
    · exact ⟨h1, h2, h3, h4⟩
    · obtain ⟨port, used2⟩ := pu
      obtain ⟨hr1, hr2, hfree, rfl, _⟩ := allocatePort_some ha
      have hnone : ∀ v, (pid, v) ∉ s.ports := by
        intro v hv
        exact hp ((h3 pid).mpr ⟨v, hv⟩)
      have herase : eraseKey s.ports pid = s.ports := eraseKey_of_not_mem hnone
      refine ⟨?_, ?_, ?_, ?_⟩
      · simp only [setKey, herase, List.map_cons, List.nodup_cons]
        refine ⟨?_, h1⟩
        simp only [List.mem_map]
        rintro ⟨⟨a, b⟩, he, hk⟩
        obtain rfl : a = pid := hk
        exact hnone b he
      · simp only [setKey, herase, List.map_cons, List.nodup_cons]
        refine ⟨?_, h2⟩
        simp only [List.mem_map]
        rintro ⟨⟨a, b⟩, he, hk⟩
        obtain rfl : b = port := hk
        exact hfree ((h4 b).mpr ⟨a, he⟩)
      · intro pid'
        simp only [Finset.mem_insert, setKey, herase, List.mem_cons, Prod.mk.injEq]
        rw [h3 pid']
        constructor
        · rintro (rfl | ⟨p, hp'⟩)
          · exact ⟨port, Or.inl ⟨rfl, rfl⟩⟩
          · exact ⟨p, Or.inr hp'⟩
        · rintro ⟨p, ⟨rfl, rfl⟩ | hp'⟩
          · exact Or.inl rfl
          · exact Or.inr ⟨p, hp'⟩
      · intro q
        simp only [Finset.mem_insert, setKey, herase, List.mem_cons, Prod.mk.injEq]
        rw [h4 q]
        constructor
        · rintro (rfl | ⟨pid', hp'⟩)
          · exact ⟨pid, Or.inl ⟨rfl, rfl⟩⟩
          · exact ⟨pid', Or.inr hp'⟩
        · rintro ⟨pid', ⟨rfl, rfl⟩ | hp'⟩
          · exact Or.inl rfl
          · exact Or.inr ⟨pid', hp'⟩

theorem pmInv_stop {s : PMState} (h : PMInv s) (pid : ProjectId) (killFailed : Bool) :
    PMInv (stopDevServer s pid killFailed) := by
  obtain ⟨h1, h2, h3, h4⟩ := h
  unfold stopDevServer
  by_cases hp : pid ∈ s.processes
  · simp only [hp, not_true, if_false]
    obtain ⟨p, hmem⟩ := (h3 pid).mp hp
    rcases hl : lookupKey s.ports pid with _ | q
    · exact absurd hmem (lookupKey_eq_none.mp hl p)
    · obtain rfl : q = p := keys_nodup_unique h1 ((lookupKey_eq_some h1).mp hl) hmem
      refine ⟨keys_eraseKey_nodup h1, vals_eraseKey_nodup h2, ?_, ?_⟩
      · intro pid'
        rw [Finset.mem_erase]
        constructor
        · rintro ⟨hne, hmem'⟩
          obtain ⟨p', hp'⟩ := (h3 pid').mp hmem'
          exact ⟨p', mem_eraseKey.mpr ⟨hp', hne⟩⟩
        · rintro ⟨p', hp'⟩
          obtain ⟨hin, hne⟩ := mem_eraseKey.mp hp'
          exact ⟨hne, (h3 pid').mpr ⟨p', hin⟩⟩
      · intro q
        simp only [releasePort, Finset.mem_erase]
        constructor
        · rintro ⟨hne, hq⟩
          obtain ⟨pid', hp'⟩ := (h4 q).mp hq
          refine ⟨pid', mem_eraseKey.mpr ⟨hp', ?_⟩⟩
          intro hk
          exact hne (keys_nodup_unique h1 (hk ▸ hp') hmem)
        · rintro ⟨pid', hp'⟩
          obtain ⟨hin, hne⟩ := mem_eraseKey.mp hp'
          refine ⟨?_, (h4 q).mpr ⟨pid', hin⟩⟩
          intro hq
          exact hne (vals_nodup_unique h2 hin (hq ▸ hmem))
  · simp only [hp, not_false_iff, if_true]
    exact ⟨h1, h2, h3, h4⟩

/-! ### C2: the invariant breaks on a realizable interleaving

`pmInv_start` and `pmInv_stop` above show that uninterleaved calls preserve
the invariant.  But `stopDevServer` captures the project's port (line 537)
and only releases it after two awaits (the 500 ms grace sleep, line 546, and
the `lsof` await, line 565); the spawned child's `close` handler and other
projects' requests run on the event loop during those awaits.  The following
trace is therefore realizable:

1. `startDevServer "a"` — "a" is bound to port 3002;
2. `stopDevServer "a"` begins: reads `port = 3002`, sends SIGTERM, awaits;
3. the killed child's `close` handler fires during the grace sleep,
   deleting "a"'s handle and releasing 3002 (`closeHandler`);
4. `startDevServer "b"` runs during the `lsof` await and allocates the
   now-free 3002;
5. the stop resumes and releases its stale captured 3002
   (`stopDevServerFinish`) — freeing the port that "b"'s live
   ProcessHandle holds;
6. a subsequent `startDevServer "c"` is handed 3002 while "b" still holds it. -/

def c2Trace1 : PMState := startDevServer initPM "a"

def c2Trace2 : PMState := closeHandler c2Trace1 "a" 3002

def c2Trace3 : PMState := startDevServer c2Trace2 "b"

def c2Trace4 : PMState := stopDevServerFinish c2Trace3 "a" 3002

def c2Trace5 : PMState := startDevServer c2Trace4 "c"

/-- C2: the claimed invariant fails on the code.  After the interleaved trace
above, project "b" holds a live ProcessHandle bound to port 3002 while the
allocator's used-port set no longer contains 3002 — the two sets differ —
and the next `startDevServer` allocates 3002 to "c" while "b" still holds
it, so a port is bound to two projects simultaneously.  (The first conjunct
records that the port `stopDevServer "a"` captured before its awaits is
3002.) -/
theorem C2_stale_release_breaks_invariant :
    lookupKey c2Trace1.ports "a" = some 3002 ∧
    "b" ∈ c2Trace4.processes ∧
    lookupKey c2Trace4.ports "b" = some 3002 ∧
    3002 ∉ c2Trace4.usedPorts ∧
    lookupKey c2Trace5.ports "c" = some 3002 ∧
    lookupKey c2Trace5.ports "b" = some 3002 := by
  decide

/-- C9: `stopDevServer` on a project with no running dev-server process is a
no-op that does not error; a second `stopDevServer` immediately after a first
leaves the state unchanged; the state effect is independent of whether the
termination signals error; and every stop that finds a running process removes
its ProcessHandle, drops its port binding and releases its port. -/
theorem C9_stopDevServer_idempotent (s : PMState) (pid : ProjectId) (k1 k2 : Bool) :
    (pid ∉ s.processes → stopDevServer s pid k1 = s) ∧
    stopDevServer (stopDevServer s pid k1) pid k2 = stopDevServer s pid k1 ∧
    stopDevServer s pid k1 = stopDevServer s pid k2 ∧
    (pid ∈ s.processes →
      pid ∉ (stopDevServer s pid k1).processes ∧
      lookupKey (stopDevServer s pid k1).ports pid = none ∧
      ∀ p, lookupKey s.ports pid = some p →
        p ∉ (stopDevServer s pid k1).usedPorts) := by
  have stop_nomem : ∀ (t : PMState) (k : Bool), pid ∉ t.processes →
      stopDevServer t pid k = t := by
    intro t k h
    unfold stopDevServer
    rw [if_pos h]
  by_cases hp : pid ∈ s.processes
  · rcases hl : lookupKey s.ports pid with _ | port
    · have hstop : ∀ k, stopDevServer s pid k =
          { s with processes := s.processes.erase pid } := by
        intro k
        unfold stopDevServer
        rw [if_neg (not_not_intro hp), hl]
      have hnot : pid ∉ (stopDevServer s pid k1).processes := by
        rw [hstop k1]
        exact Finset.not_mem_erase pid s.processes
      refine ⟨fun h => absurd hp h, stop_nomem _ k2 hnot,
        by rw [hstop k1, hstop k2], fun _ => ⟨hnot, ?_, ?_⟩⟩
      · rw [hstop k1]
        exact hl
      · intro p hp'
        simp at hp'
    · have hstop : ∀ k, stopDevServer s pid k =
          ⟨releasePort s.usedPorts port, eraseKey s.ports pid,
            s.processes.erase pid⟩ := by
        intro k
        unfold stopDevServer
        rw [if_neg (not_not_intro hp), hl]
      have hnot : pid ∉ (stopDevServer s pid k1).processes := by
        rw [hstop k1]
        exact Finset.not_mem_erase pid s.processes
      refine ⟨fun h => absurd hp h, stop_nomem _ k2 hnot,
        by rw [hstop k1, hstop k2], fun _ => ⟨hnot, ?_, ?_⟩⟩
      · rw [hstop k1]
        exact lookupKey_eraseKey_self
      · intro p hp'
        obtain rfl : port = p := by injection hp'
        rw [hstop k1]
        simp [releasePort]
  · refine ⟨fun _ => stop_nomem s k1 hp, ?_,
      by rw [stop_nomem s k1 hp, stop_nomem s k2 hp], fun h => absurd h hp⟩
    rw [stop_nomem s k1 hp, stop_nomem s k2 hp]

/-- A state with one running dev server, for the C9 witness. -/
def pmA : PMState := ⟨{3002}, [("a", 3002)], {"a"}⟩

theorem C9_witness :
    stopDevServer pmA "b" true = pmA ∧
    stopDevServer (stopDevServer pmA "a" true) "a" false =
      stopDevServer pmA "a" true ∧
    ("a" ∉ (stopDevServer pmA "a" true).processes ∧
      lookupKey (stopDevServer pmA "a" true).ports "a" = none ∧
      ∀ p, lookupKey pmA.ports "a" = some p →
        p ∉ (stopDevServer pmA "a" true).usedPorts) :=
  ⟨(C9_stopDevServer_idempotent pmA "b" true true).1 (by decide),
   (C9_stopDevServer_idempotent pmA "a" true false).2.1,
   (C9_stopDevServer_idempotent pmA "a" true true).2.2.2 (by decide)⟩

/-! ## Log fan-out hub (`project-manager.ts` lines 49, 163-195)

`logSubscriptions : Map<string, Set<LogCallback>>`.  Callbacks are identified
by opaque ids; a JS `Set` is an insertion-ordered duplicate-free list
(`add` appends when the element is absent, `delete` removes it). -/

abbrev Listener := Nat

structure Hub where
  logSubscriptions : List (ProjectId × List Listener)

def hubGet (h : Hub) (pid : ProjectId) : Option (List Listener) :=
  lookupKey h.logSubscriptions pid

/-- `ProjectManager.subscribeToLogs`: creates the project's subscriber set if
absent, then `Set.add`s the callback. -/
def subscribeToLogs (h : Hub) (pid : ProjectId) (callback : Listener) : Hub :=
  match hubGet h pid with
  | none => ⟨setKey h.logSubscriptions pid [callback]⟩
  | some subs =>
      ⟨setKey h.logSubscriptions pid
        (if callback ∈ subs then subs else subs ++ [callback])⟩

/-- `ProjectManager.unsubscribeFromLogs`: `Set.delete` on the project's
subscriber set when one exists, otherwise nothing. -/
def unsubscribeFromLogs (h : Hub) (pid : ProjectId) (callback : Listener) : Hub :=
  match hubGet h pid with
  | none => h
  | some subs => ⟨setKey h.logSubscriptions pid (subs.erase callback)⟩

/-- The deliveries performed by `ProjectManager.log` for a record owned by
`pid`: `subscribers.forEach(callback => callback(logEntry))` over the set
subscribed to `record.projectId` at the moment of publish (none if absent). -/
def publishDeliveries (h : Hub) (pid : ProjectId) : List Listener :=
  (hubGet h pid).getD []

abbrev isSubscribed (h : Hub) (pid : ProjectId) (cb : Listener) : Prop :=
  cb ∈ publishDeliveries h pid

/-- Well-formedness every reachable hub enjoys: the subscription map has
duplicate-free keys and each subscriber set is duplicate-free. -/
def HubWf (h : Hub) : Prop :=
  (h.logSubscriptions.map Prod.fst).Nodup ∧
  ∀ e ∈ h.logSubscriptions, e.2.Nodup

theorem lookupKey_setKey_self {β : Type} {l : List (ProjectId × β)}
    {k : ProjectId} {v : β} : lookupKey (setKey l k v) k = some v := by
  unfold lookupKey setKey
  rw [List.find?_cons_of_pos _ (by simp)]
  rfl

theorem find?_filter_ne {β : Type} (l : List (ProjectId × β)) (k q : ProjectId)
    (hne : q ≠ k) :
    (l.filter (fun e => e.1 != k)).find? (fun e => e.1 == q) =
      l.find? (fun e => e.1 == q) := by
  induction l with
  | nil => rfl
  | cons hd tl ih =>
    by_cases hq : hd.1 = q
    · have hfil : (hd.1 != k) = true := by simp [hq, hne]
      rw [List.filter_cons_of_pos (by simpa using hfil),
        List.find?_cons_of_pos _ (by simp [hq]),
        List.find?_cons_of_pos _ (by simp [hq])]
    · by_cases hk : hd.1 = k
      · rw [List.filter_cons_of_neg (by simp [hk]),
          List.find?_cons_of_neg _ (by simp [hq]), ih]
      · rw [List.filter_cons_of_pos (by simp [hk]),
          List.find?_cons_of_neg _ (by simp [hq]),
          List.find?_cons_of_neg _ (by simp [hq]), ih]

theorem lookupKey_setKey_ne {β : Type} {l : List (ProjectId × β)}
    {k q : ProjectId} (hne : q ≠ k) (v : β) :
    lookupKey (setKey l k v) q = lookupKey l q := by
  unfold lookupKey setKey eraseKey
  rw [List.find?_cons_of_neg _ (by simpa using Ne.symm hne),
    find?_filter_ne l k q hne]

theorem hubGet_nodup {h : Hub} (hw : HubWf h) {pid : ProjectId}
    {subs : List Listener} (hg : hubGet h pid = some subs) : subs.Nodup := by
  unfold hubGet lookupKey at hg
  rcases hf : h.logSubscriptions.find? (fun e => e.1 == pid) with _ | e
  · rw [hf] at hg; cases hg
  · rw [hf] at hg
    obtain rfl : e.2 = subs := by simpa using hg
    exact hw.2 e (List.mem_of_find?_eq_some hf)

/-- C3: a published record is delivered exactly once to each listener
subscribed to its project at the moment of publish; a listener not subscribed
to that project (in particular one subscribed only to a different project)
receives nothing; immediately after `unsubscribeFromLogs` the listener
receives zero further deliveries for that project; and unsubscribing a
listener that was never subscribed does not error and leaves every project's
subscriber set unchanged. -/
theorem C3_fanout_exactly_once (h : Hub) (pid : ProjectId) (cb : Listener)
    (hw : HubWf h) :
    (isSubscribed h pid cb → (publishDeliveries h pid).count cb = 1) ∧
    (¬ isSubscribed h pid cb → (publishDeliveries h pid).count cb = 0) ∧
    (publishDeliveries (unsubscribeFromLogs h pid cb) pid).count cb = 0 ∧
    (¬ isSubscribed h pid cb →
      ∀ q, hubGet (unsubscribeFromLogs h pid cb) q = hubGet h q) := by
  refine ⟨?_, fun hn => List.count_eq_zero.mpr hn, ?_, ?_⟩
  · intro hs
    rcases hg : hubGet h pid with _ | subs
    · unfold isSubscribed publishDeliveries at hs
      rw [hg] at hs
      cases hs
    · have hnd := hubGet_nodup hw hg
      unfold isSubscribed publishDeliveries at hs
      unfold publishDeliveries
      rw [hg] at hs ⊢
      exact List.count_eq_one_of_mem hnd hs
  · rcases hg : hubGet h pid with _ | subs
    · have hunsub : unsubscribeFromLogs h pid cb = h := by
        unfold unsubscribeFromLogs
        rw [hg]
      rw [hunsub]
      unfold publishDeliveries
      rw [hg]
      simp
    · have hnd := hubGet_nodup hw hg
      have hunsub : unsubscribeFromLogs h pid cb =
          ⟨setKey h.logSubscriptions pid (subs.erase cb)⟩ := by
        unfold unsubscribeFromLogs
        rw [hg]
      rw [hunsub]
      unfold publishDeliveries
      have hget : hubGet (⟨setKey h.logSubscriptions pid (subs.erase cb)⟩ : Hub) pid =
          some (subs.erase cb) := lookupKey_setKey_self
      rw [hget]
      simp only [Option.getD_some]
      rw [List.count_eq_zero]
      intro hmem
      exact ((List.Nodup.mem_erase_iff hnd).mp hmem).1 rfl
  · intro hn q
    rcases hg : hubGet h pid with _ | subs
    · have hunsub : unsubscribeFromLogs h pid cb = h := by
        unfold unsubscribeFromLogs
        rw [hg]
      rw [hunsub]
    · have hnotin : cb ∉ subs := by
        unfold isSubscribed publishDeliveries at hn
        rw [hg] at hn
        simpa using hn
      have hunsub : unsubscribeFromLogs h pid cb =
          ⟨setKey h.logSubscriptions pid (subs.erase cb)⟩ := by
        unfold unsubscribeFromLogs
        rw [hg]
      rw [hunsub, List.erase_of_not_mem hnotin]
      by_cases hq : q = pid
      · subst hq
        have hget : hubGet (⟨setKey h.logSubscriptions q subs⟩ : Hub) q =
            some subs := lookupKey_setKey_self
        rw [hget, ← hg]
      · exact lookupKey_setKey_ne hq subs

/-- A hub with listener 7 subscribed to project A and listener 8 to project
B, for the C3 witness. -/
def hubAB : Hub := ⟨[("A", [7]), ("B", [8])]⟩

theorem C3_witness :
    (publishDeliveries hubAB "A").count 7 = 1 ∧
    (publishDeliveries hubAB "B").count 7 = 0 ∧
    (publishDeliveries (unsubscribeFromLogs hubAB "A" 7) "A").count 7 = 0 ∧
    (∀ q, hubGet (unsubscribeFromLogs hubAB "B" 7) q = hubGet hubAB q) :=
  have hw : HubWf hubAB := ⟨by decide, by decide⟩
  ⟨(C3_fanout_exactly_once hubAB "A" 7 hw).1 (by decide),
   (C3_fanout_exactly_once hubAB "B" 7 hw).2.1 (by decide),
   (C3_fanout_exactly_once hubAB "A" 7 hw).2.2.1,
   (C3_fanout_exactly_once hubAB "B" 7 hw).2.2.2 (by decide)⟩

/-! ## Reconnecting WebSocket client (`useProjectManager.ts` lines 174-241)

`connect()` first computes
`delay = Math.min(1000 * Math.pow(2, reconnectAttempts), maxReconnectDelay)`
and captures it in the closure; `ws.onopen` resets `reconnectAttempts` to 0;
`ws.onclose` increments `reconnectAttempts` and calls
`setTimeout(connect, delay)` with the delay captured at the start of this
`connect` call. -/

def maxReconnectDelay : Nat := 10000

structure WsClient where
  reconnectAttempts : Nat
  currentDelay : Nat

/-- Entry of `connect()`: compute and capture the backoff delay from the
current attempt counter. -/
def connectStep (s : WsClient) : WsClient :=
  { s with currentDelay := min (1000 * 2 ^ s.reconnectAttempts) maxReconnectDelay }

/-- `ws.onopen`: reset the attempt counter (the captured delay is untouched). -/
def onOpen (s : WsClient) : WsClient :=
  { s with reconnectAttempts := 0 }

/-- `ws.onclose`: increment the attempt counter and schedule the reconnect
after the delay captured when this connection attempt started. -/
def onClose (s : WsClient) : WsClient × Nat :=
  ({ s with reconnectAttempts := s.reconnectAttempts + 1 }, s.currentDelay)

inductive WsEvent where
  | opened
  | closed

/-- Run a sequence of socket events starting inside a `connect` call,
collecting the scheduled reconnect delays; every close is followed by a fresh
`connect` call. -/
def runWs : WsClient → List WsEvent → List Nat
  | _, [] => []
  | s, WsEvent.opened :: rest => runWs (onOpen s) rest
  | s, WsEvent.closed :: rest =>
      let sc := onClose s
      sc.2 :: runWs (connectStep sc.1) rest

/-- The client state right after the initial `connect()` call. -/
def initWs : WsClient := connectStep ⟨0, 0⟩

/-- C4 counterexample: two failed attempts, then a successful open, then a
close.  The code schedules 4000 ms for the final reconnect — the delay
captured when that connection was initiated with `reconnectAttempts = 2` —
whereas the claimed formula, with `attempt` reset to zero by the successful
open, predicts 1000 ms (or 2000 ms reading `attempt` post-increment). -/
theorem C4_counterexample :
    runWs initWs [WsEvent.closed, WsEvent.closed, WsEvent.opened, WsEvent.closed] =
      [1000, 2000, 4000] ∧
    (4000 : Nat) ≠ min (1000 * 2 ^ 0) 10000 ∧
    (4000 : Nat) ≠ min (1000 * 2 ^ 1) 10000 :=
  ⟨rfl, by decide, by decide⟩

/-- C4 amended: the delay scheduled after a close equals
`min(1000ms * 2^a, 10000ms)` where `a` is the value of the attempt counter
when that connection attempt started (the delay is captured at `connect`
time, so a close following a successful open still uses the delay captured
before the open reset the counter); the counter increments on each close and
resets to zero on a successful open; in particular an uninterrupted run of
failures from a fresh start schedules 1, 2, 4, 8 then 10 (capped) seconds
for attempts 0 through 4. -/
theorem C4_amended_backoff_delays :
    (∀ (a d : Nat) (rest : List WsEvent),
        runWs (connectStep ⟨a, d⟩) (WsEvent.closed :: rest) =
          min (1000 * 2 ^ a) maxReconnectDelay ::
            runWs (connectStep ⟨a + 1, min (1000 * 2 ^ a) maxReconnectDelay⟩) rest) ∧
    (∀ (a d : Nat) (rest : List WsEvent),
        runWs (connectStep ⟨a, d⟩) (WsEvent.opened :: rest) =
          runWs ⟨0, min (1000 * 2 ^ a) maxReconnectDelay⟩ rest) ∧
    runWs initWs (List.replicate 5 WsEvent.closed) =
      [1000, 2000, 4000, 8000, 10000] := by
  refine ⟨fun a d rest => rfl, fun a d rest => rfl, by decide⟩

/-! ## Startup orphan cleanup (`project-manager.ts` lines 68-86) -/

/-- The ports for which `cleanupOrphanedProcesses` attempts a forced
termination of bound processes:
`for (let port = PORT_RANGE_START; port <= Math.min(PORT_RANGE_START + 10, PORT_RANGE_END); port++)`. -/
def cleanupOrphanedPorts : List Nat :=
  List.range' PORT_RANGE_START (min (PORT_RANGE_START + 10) PORT_RANGE_END + 1 - PORT_RANGE_START)

/-- C7 counterexample: port 3013 lies in the managed allocator range
[3002, 3100] but the startup cleanup loop stops at
`min(PORT_RANGE_START + 10, PORT_RANGE_END) = 3012` and never attempts a kill
on it. -/
theorem C7_counterexample :
    PORT_RANGE_START ≤ 3013 ∧ 3013 ≤ PORT_RANGE_END ∧
      3013 ∉ cleanupOrphanedPorts :=
  ⟨by decide, by decide, by decide⟩

/-- C7 amended: the startup orphan cleanup attempts a forced termination
exactly for the first eleven ports 3002..3012 of the managed range, not for
every port of [3002, 3100]. -/
theorem C7_amended_cleanup_ports :
    ∀ p, p ∈ cleanupOrphanedPorts ↔ 3002 ≤ p ∧ p ≤ 3012 := by
  intro p
  have h : cleanupOrphanedPorts = List.range' 3002 11 := rfl
  rw [h, List.mem_range'_1]
  omega


/-! ## Project id generation, directory naming and recovery
(`project-manager.ts` lines 88-131, 145-147, 197-228)

`createProject` builds the directory name
`${name.toLowerCase().replace(/[^a-z0-9-]/g, '-')}-${id.slice(0, 6)}` from a
freshly generated 16-hex-digit id; `loadProjectsFromDisk` reconstructs an id
with the regex `-([a-f0-9]+)$` on `entry.name`, falling back to
`generateId()`.  String operations are modelled on the character list
(`String.data`); case mapping is ASCII. -/

/-- One character of `name.toLowerCase().replace(/[^a-z0-9-]/g, '-')`. -/
def sanitizeChar (c : Char) : Char :=
  let c2 := c.toLower
  if ('a' ≤ c2 ∧ c2 ≤ 'z') ∨ ('0' ≤ c2 ∧ c2 ≤ '9') ∨ c2 = '-' then c2 else '-'

def sanitizeName (name : String) : String :=
  String.mk (name.data.map sanitizeChar)

/-- `id.slice(0, 6)`. -/
def idSlice6 (id : String) : String := String.mk (id.data.take 6)

/-- The project directory name chosen by `createProject`. -/
def projectDirName (name id : String) : String :=
  sanitizeName name ++ "-" ++ idSlice6 id

/-- A character of the regex class `[a-f0-9]`. -/
def isHexChar (c : Char) : Bool :=
  (decide ('a' ≤ c) && decide (c ≤ 'f')) || c.isDigit

/-- The capture of the regex `-([a-f0-9]+)$` on a directory name: the maximal
non-empty hex suffix, provided the character just before it is a dash. -/
def recoverIdFromDirName (dirName : String) : Option String :=
  let rev := dirName.data.reverse
  let hexRun := rev.takeWhile isHexChar
  if hexRun.isEmpty then none
  else
    match rev.drop hexRun.length with
    | '-' :: _ => some (String.mk hexRun.reverse)
    | _ => none

/-- The id `loadProjectsFromDisk` assigns to a scanned directory:
`match ? match[1] : this.generateId()`. -/
def loadedProjectId (dirName freshId : String) : String :=
  (recoverIdFromDirName dirName).getD freshId

theorem takeWhile_append_stop {α : Type} (p : α → Bool) :
    ∀ (l1 : List α) (c : α) (l2 : List α),
      (∀ a ∈ l1, p a = true) → p c = false →
      (l1 ++ c :: l2).takeWhile p = l1 := by
  intro l1
  induction l1 with
  | nil =>
    intro c l2 _ hc
    rw [List.nil_append]
    rw [show (c :: l2).takeWhile p = [] from List.takeWhile_cons_of_neg (by simp [hc])]
  | cons hd tl ih =>
    intro c l2 h hc
    rw [List.cons_append, List.takeWhile_cons_of_pos (h hd (by simp)),
      ih c l2 (fun a ha => h a (by simp [ha])) hc]

/-- C6 counterexample: the project "todo" created with the 16-hex-digit id
"deadbeefdeadbeef" gets the directory "todo-deadbe" (only the first six id
characters are embedded); the startup recovery scan reconstructs "deadbe",
which differs from the id the project had when it was created. -/
theorem C6_counterexample :
    projectDirName "todo" "deadbeefdeadbeef" = "todo-deadbe" ∧
    loadedProjectId (projectDirName "todo" "deadbeefdeadbeef") "fresh" = "deadbe" ∧
    loadedProjectId (projectDirName "todo" "deadbeefdeadbeef") "fresh" ≠
      "deadbeefdeadbeef" :=
  ⟨by decide, by decide, by decide⟩

/-- C6 amended: for every project created by `createProject` (name arbitrary,
id a non-empty string of `[a-f0-9]` characters, as `generateId`'s 16
lowercase hex digits always are), the recovery scan reconstructs exactly the
first six characters of the creation id — `id.slice(0, 6)` — not the full id;
it is this six-character directory suffix, not the original id, that is
stable across restarts. -/
theorem C6_amended_recovered_id (name id freshId : String)
    (hne : id.data ≠ []) (hhex : ∀ c ∈ id.data, isHexChar c = true) :
    loadedProjectId (projectDirName name id) freshId = idSlice6 id := by
  have happ : ∀ a b : String, (a ++ b).data = a.data ++ b.data := fun _ _ => rfl
  have hdata : (projectDirName name id).data =
      (sanitizeName name).data ++ '-' :: id.data.take 6 := by
    show ((sanitizeName name ++ "-") ++ idSlice6 id).data = _
    rw [happ, happ, List.append_assoc]
    rfl
  have ht_hex : ∀ a ∈ (id.data.take 6).reverse, isHexChar a = true := by
    intro a ha
    exact hhex a (List.take_subset 6 id.data (by simpa using ha))
  have ht_ne : (id.data.take 6).reverse ≠ [] := by
    rcases hl : id.data with _ | ⟨c, cs⟩
    · exact absurd hl hne
    · simp
  have hrev : (projectDirName name id).data.reverse =
      (id.data.take 6).reverse ++ '-' :: (sanitizeName name).data.reverse := by
    rw [hdata, List.reverse_append, List.reverse_cons, List.append_assoc]
    simp
  have htake : (projectDirName name id).data.reverse.takeWhile isHexChar =
      (id.data.take 6).reverse := by
    rw [hrev]
    exact takeWhile_append_stop isHexChar _ '-' _ ht_hex (by decide)
  have hdrop : (projectDirName name id).data.reverse.drop
      ((id.data.take 6).reverse.length) =
      '-' :: (sanitizeName name).data.reverse := by
    rw [hrev]
    exact List.drop_left _ _
  have hrecover : recoverIdFromDirName (projectDirName name id) =
      some (idSlice6 id) := by
    simp only [recoverIdFromDirName]
    rw [htake, hdrop, if_neg (by simpa using ht_ne)]
    simp [idSlice6]
  simp [loadedProjectId, hrecover]

theorem C6_amended_witness :
    loadedProjectId (projectDirName "my app" "0123456789abcdef") "fresh2" =
      idSlice6 "0123456789abcdef" :=
  C6_amended_recovered_id "my app" "0123456789abcdef" "fresh2" (by decide) (by decide)

/-! ## `writeFile` path containment (`project-manager.ts` lines 271-293) -/

/-- Split a POSIX path into its `/`-separated chunks. -/
def splitPathChars (cs : List Char) : List (List Char) :=
  cs.foldr
    (fun c acc =>
      if c = '/' then [] :: acc
      else
        match acc with
        | [] => [[c]]
        | seg :: rest => (c :: seg) :: rest) [[]]

/-- The non-empty segments of a POSIX path. -/
def splitPath (s : String) : List String :=
  ((splitPathChars s.data).map String.mk).filter (fun seg => seg != "")

/-- `.` and `..` processing as `path.resolve` performs it. -/
def normalizeSegs (segs : List String) : List String :=
  segs.foldl
    (fun acc seg =>
      if seg = "." then acc
      else if seg = ".." then acc.dropLast
      else acc ++ [seg]) []

/-- `path.resolve(base, rel)` for an absolute normalized `base` and a
relative `rel`. -/
def resolvePath (base rel : String) : String :=
  "/" ++ String.intercalate "/" (normalizeSegs (splitPath base ++ splitPath rel))

/-- `s.startsWith(pre)`. -/
def strStartsWith (s pre : String) : Bool := pre.data.isPrefixOf s.data

/-- The security check in `ProjectManager.writeFile`:
`fullPath.startsWith(project.path)`. -/
def writeFileCheck (projectPath relPath : String) : Bool :=
  strStartsWith (resolvePath projectPath relPath) projectPath

/-- `ProjectManager.writeFile`: throws
`Invalid file path: outside project directory` when the check fails — before
any filesystem mutation — and otherwise creates directories and writes at the
resolved path (returned here). -/
def writeFile (projectPath relPath : String) : Except String String :=
  if !writeFileCheck projectPath relPath then
    Except.error "Invalid file path: outside project directory"
  else Except.ok (resolvePath projectPath relPath)

/-- Genuine containment: the resolved path lies inside the project root,
segment-wise. -/
def insideProjectRoot (projectPath relPath : String) : Bool :=
  (splitPath projectPath).isPrefixOf (splitPath (resolvePath projectPath relPath))

/-- C1: the containment check lacks a trailing-separator guard.  For project
root `/projects/todo-deadbe`, the relative path `../todo-deadbeef/x` resolves
to `/projects/todo-deadbeef/x` — outside the project root — yet
`fullPath.startsWith(project.path)` accepts it and the write proceeds,
mutating the filesystem outside the root (contradicting the code's own
`Security: ensure file is within project directory` comment).  A plain
escape such as `../../etc/passwd` is rejected as the claim describes. -/
theorem C1_writeFile_prefix_bypass :
    resolvePath "/projects/todo-deadbe" "../todo-deadbeef/x" =
      "/projects/todo-deadbeef/x" ∧
    insideProjectRoot "/projects/todo-deadbe" "../todo-deadbeef/x" = false ∧
    writeFile "/projects/todo-deadbe" "../todo-deadbeef/x" =
      Except.ok "/projects/todo-deadbeef/x" ∧
    writeFile "/projects/todo-deadbe" "../../etc/passwd" =
      Except.error "Invalid file path: outside project directory" :=
  ⟨by decide, by decide, rfl, rfl⟩

/-! ## Log classifier (`project-manager.ts` lines 447-510)

`detectLogLevel` lowercases the message and tests keyword/regex patterns in
the order error, warn, success, info; `cleanLogLine` strips ANSI escapes and
carriage returns, trims, and drops empty, single-character and spinner-frame
lines.  Strings are modelled on their character lists; the regexes
`\berr\b`, `server.*running`, `local.*http` and `\d+\s*ms\b` are modelled by
explicit match-existence scans. -/

inductive LogLevel where
  | info
  | error
  | success
  | warn
deriving DecidableEq

/-- `message.toLowerCase()` (ASCII case mapping). -/
def toLowerString (s : String) : String := String.mk (s.data.map Char.toLower)

/-- `s.includes(pat)`. -/
def containsSubstr (s pat : String) : Bool := decide (pat.data <:+: s.data)

/-- A JS regex `\w` word character. -/
def isWordChar (c : Char) : Bool := c.isAlpha || c.isDigit || c = '_'

/-- Does `pat` occur in `s` starting at index `i`? -/
def matchAt (s pat : List Char) (i : Nat) : Bool := pat.isPrefixOf (s.drop i)

/-- Existence of a match of `\berr\b`. -/
def matchesWordErr (s : String) : Bool :=
  (List.range s.data.length).any (fun i =>
    matchAt s.data ['e', 'r', 'r'] i &&
    (if i = 0 then true else !isWordChar (s.data.getD (i - 1) ' ')) &&
    !isWordChar (s.data.getD (i + 3) ' '))

/-- Existence of a match of `pat1.*pat2` (`.` does not match a newline). -/
def matchesSeq (s pat1 pat2 : String) : Bool :=
  (List.range (s.data.length + 1)).any (fun i =>
    matchAt s.data pat1.data i &&
    (List.range (s.data.length + 1)).any (fun j =>
      decide (i + pat1.data.length ≤ j) && matchAt s.data pat2.data j &&
      ((s.data.drop (i + pat1.data.length)).take (j - (i + pat1.data.length))).all
        (fun c => c != '\n')))

/-- Existence of a match of `\d+\s*ms\b`. -/
def matchesMsTiming (s : String) : Bool :=
  (List.range s.data.length).any (fun p =>
    (s.data.getD p ' ').isDigit &&
    (let rest := (s.data.drop (p + 1)).dropWhile Char.isWhitespace
     ['m', 's'].isPrefixOf rest && !isWordChar (rest.getD 2 ' ')))

/-- The error-pattern test of `detectLogLevel`, on the lowercased message. -/
def errorPattern (lower : String) : Bool :=
  containsSubstr lower "error" || containsSubstr lower "failed" ||
  containsSubstr lower "exception" || containsSubstr lower "fatal" ||
  matchesWordErr lower || containsSubstr lower "cannot find" ||
  (containsSubstr lower "not found" && containsSubstr lower "module")

/-- The warning-pattern test of `detectLogLevel`. -/
def warnPattern (lower : String) : Bool :=
  containsSubstr lower "warn" || containsSubstr lower "warning" ||
  containsSubstr lower "deprecated" || containsSubstr lower "conflict"

/-- The success-pattern test of `detectLogLevel`. -/
def successPattern (lower : String) : Bool :=
  containsSubstr lower "ready" || containsSubstr lower "compiled" ||
  containsSubstr lower "success" || containsSubstr lower "✓" ||
  containsSubstr lower "✔" || matchesSeq lower "server" "running" ||
  matchesSeq lower "local" "http" || containsSubstr lower "hmr" ||
  (containsSubstr lower "updated" &&
    (containsSubstr lower ".tsx" || containsSubstr lower ".ts" ||
      containsSubstr lower ".jsx")) ||
  containsSubstr lower "page reload" || containsSubstr lower "reloaded" ||
  (matchesMsTiming lower && containsSubstr lower "vite")

/-- `ProjectManager.detectLogLevel`. -/
def detectLogLevel (message : String) : LogLevel :=
  let lower := toLowerString message
  if errorPattern lower then LogLevel.error
  else if warnPattern lower then LogLevel.warn
  else if successPattern lower then LogLevel.success
  else LogLevel.info

/-- When `l` begins with a colour escape `ESC [ [0-9;]* m`, the remainder
after the escape. -/
def colorCodePrefix? (l : List Char) : Option (List Char) :=
  match l with
  | c1 :: c2 :: rest =>
      if c1 = '\x1b' ∧ c2 = '[' then
        match rest.drop ((rest.takeWhile (fun c => c.isDigit || c = ';')).length) with
        | c3 :: rest2 => if c3 = 'm' then some rest2 else none
        | [] => none
      else none
  | _ => none

/-- When `l` begins with a general escape `ESC [ [0-9;]* [A-Za-z]`, the
remainder after the escape. -/
def ansiCodePrefix? (l : List Char) : Option (List Char) :=
  match l with
  | c1 :: c2 :: rest =>
      if c1 = '\x1b' ∧ c2 = '[' then
        match rest.drop ((rest.takeWhile (fun c => c.isDigit || c = ';')).length) with
        | c3 :: rest2 => if c3.isAlpha then some rest2 else none
        | [] => none
      else none
  | _ => none

/-- Global leftmost non-overlapping replacement of an escape pattern by the
empty string: where an escape starts, skip it; otherwise keep the character.
The fuel argument (instantiated with the list length, which bounds the number
of steps) makes the recursion structural. -/
def stripAux (esc : List Char → Option (List Char)) : Nat → List Char → List Char
  | _, [] => []
  | 0, l => l
  | fuel + 1, c :: rest =>
      match esc (c :: rest) with
      | some rest2 => stripAux esc fuel rest2
      | none => c :: stripAux esc fuel rest

/-- `line.replace(/\x1b\[[0-9;]*m/g, '')`. -/
def stripColorCodes (l : List Char) : List Char := stripAux colorCodePrefix? l.length l

/-- `.replace(/\x1b\[[0-9;]*[A-Za-z]/g, '')`. -/
def stripAnsiCodes (l : List Char) : List Char := stripAux ansiCodePrefix? l.length l

/-- `.trim()`. -/
def strTrim (s : String) : String :=
  String.mk (((s.data.dropWhile Char.isWhitespace).reverse.dropWhile
    Char.isWhitespace).reverse)

def spinnerFrameChars : List Char :=
  ['⠋', '⠙', '⠹', '⠸', '⠼', '⠴', '⠦', '⠧', '⠇', '⠏', '▀', '▄', '█']

/-- The spinner-frame filter `/^[⠋⠙⠹⠸⠼⠴⠦⠧⠇⠏▀▄█]$/`. -/
def isSpinnerFrame (s : String) : Bool :=
  match s.data with
  | [c] => spinnerFrameChars.contains c
  | _ => false

/-- `ProjectManager.cleanLogLine`: strip colour codes, then other ANSI codes,
remove carriage returns, trim; discard empty results, results shorter than
two characters and spinner frames. -/
def cleanLogLine (line : String) : String :=
  let cleaned := strTrim (String.mk
    ((stripAnsiCodes (stripColorCodes line.data)).filter (fun c => c != '\r')))
  if cleaned = "" then ""
  else if cleaned.data.length < 2 then ""
  else if isSpinnerFrame cleaned then ""
  else cleaned

/-- The classification pipeline applied to every raw output line at the call
sites: `cleanLogLine`, then `detectLogLevel` when the result is non-empty. -/
def classifyLine (line : String) : Option LogLevel :=
  let cleaned := cleanLogLine line
  if cleaned = "" then none else some (detectLogLevel cleaned)

/-- C8: `detectLogLevel` is a pure (hence deterministic) function evaluating
its keyword heuristics in the precedence order error, then warn, then
success, then info; on the fixed corpus the pipeline classifies
`Error: cannot find module 'x'` as error, `warning: deprecated` as warn,
`✓ ready in 120ms` as success and `hello` as info — identically on every
run, since the classifier is a function of the message alone. -/
theorem C8_classifier_precedence_corpus :
    (∀ m, errorPattern (toLowerString m) = true →
        detectLogLevel m = LogLevel.error) ∧
    (∀ m, errorPattern (toLowerString m) = false →
        warnPattern (toLowerString m) = true →
        detectLogLevel m = LogLevel.warn) ∧
    (∀ m, errorPattern (toLowerString m) = false →
        warnPattern (toLowerString m) = false →
        successPattern (toLowerString m) = true →
        detectLogLevel m = LogLevel.success) ∧
    (∀ m, errorPattern (toLowerString m) = false →
        warnPattern (toLowerString m) = false →
        successPattern (toLowerString m) = false →
        detectLogLevel m = LogLevel.info) ∧
    classifyLine "Error: cannot find module 'x'" = some LogLevel.error ∧
    classifyLine "warning: deprecated" = some LogLevel.warn ∧
    classifyLine "✓ ready in 120ms" = some LogLevel.success ∧
    classifyLine "hello" = some LogLevel.info := by
  refine ⟨fun m h => by simp [detectLogLevel, h],
    fun m h1 h2 => by simp [detectLogLevel, h1, h2],
    fun m h1 h2 h3 => by simp [detectLogLevel, h1, h2, h3],
    fun m h1 h2 h3 => by simp [detectLogLevel, h1, h2, h3],
    by decide, by decide, by decide, by decide⟩

theorem C8_witness :
    detectLogLevel "Error: cannot find module 'x'" = LogLevel.error ∧
    detectLogLevel "warning: deprecated" = LogLevel.warn ∧
    detectLogLevel "✓ ready in 120ms" = LogLevel.success ∧
    detectLogLevel "hello" = LogLevel.info :=
  ⟨C8_classifier_precedence_corpus.1 "Error: cannot find module 'x'" (by decide),
   C8_classifier_precedence_corpus.2.1 "warning: deprecated" (by decide) (by decide),
   C8_classifier_precedence_corpus.2.2.1 "✓ ready in 120ms"
     (by decide) (by decide) (by decide),
   C8_classifier_precedence_corpus.2.2.2.1 "hello"
     (by decide) (by decide) (by decide)⟩

/-! ## Project creation and template failure (`project-manager.ts` lines 197-268)

`createProject` makes the project directory, registers the Project in the
in-memory map, and only then calls `generateProjectFiles`, whose template
failures (`Template for ... not yet implemented`, `Template not found`)
propagate out of `createProject` with no rollback. -/

end CFChat
